import Mathlib

/-!
Verification development for the passrus password store.

Shallow embedding of the core of the repository:
 - `src/cryptman.rs`: password-based key derivation and envelope
   encryption (`pass_2_key`, `encrypt_file_mem_with_salt`,
   `decrypt_file_mem_gen_key`);
 - `src/passman.rs`: the `Container`/`Entry` tree, traversal queries and
   the encrypt/save and load/decrypt lifecycle;
 - `src/main.rs`: the command handlers (`handle_open`, `handle_get`,
   `create_child`) and the socket argument cleaning (`clean_arg`).

Bytes are modelled as `Nat`, byte strings as `List Nat`; `HashMap` fields
are modelled as association lists.  The external cryptographic and
serialization primitives (Argon2, XChaCha20Poly1305, serde_json) are
modelled as a structure `Prim` of opaque function fields together with the
laws the libraries document (AEAD decryption inverts encryption, a
mismatched key fails authentication, the ciphertext is strictly longer
than the plaintext by the authentication tag).  Everything else is
translated statement by statement from the Rust source.
-/

/-- One credential record (`passman.rs`, `struct Entry`).  `pass_vec` is the
secret: either plaintext bytes or an envelope once sealed. -/
structure Entry where
  username : String
  pass_vec : List Nat
  email : String
  url : String
  parent : String
deriving DecidableEq, Repr

/-- A named node of the secret tree (`passman.rs`, `struct Container`).
`children` and `entries` model the Rust `HashMap`s as association lists. -/
inductive Container where
  | mk (name : String) (children : List (String × Container))
      (entries : List (String × Entry)) (parent : String)

/-- The container's name. -/
def Container.name : Container → String
  | .mk n _ _ _ => n

/-- The container's children map. -/
def Container.children : Container → List (String × Container)
  | .mk _ ch _ _ => ch

/-- The container's entries map. -/
def Container.entries : Container → List (String × Entry)
  | .mk _ _ en _ => en

/-- The container's parent back-reference. -/
def Container.parent : Container → String
  | .mk _ _ _ p => p

/-- `HashMap::insert`: replace the binding of `k` if present, else add it. -/
def insertAssoc {α : Type} (k : String) (v : α) : List (String × α) → List (String × α)
  | [] => [(k, v)]
  | (k1, v1) :: rest => if k1 = k then (k, v) :: rest else (k1, v1) :: insertAssoc k v rest

/-- `HashMap::get` / lookup by key. -/
def lookupAssoc {α : Type} (k : String) : List (String × α) → Option α
  | [] => none
  | (k1, v1) :: rest => if k1 = k then some v1 else lookupAssoc k rest

/-- `HashMap::contains_key`. -/
def containsKey {α : Type} (k : String) (m : List (String × α)) : Bool :=
  (lookupAssoc k m).isSome

/-- External library primitives used by the repository, modelled as opaque
functions with the laws their documentation guarantees: `argon2` is the
Argon2 password hash (`Argon2::hash_password_into`), `enc`/`dec` are
XChaCha20Poly1305 AEAD encryption and decryption (key, nonce, payload),
`toJson`/`fromJson` are serde_json serialization of a `Container`. -/
structure Prim where
  argon2 : String → List Nat → List Nat
  enc : List Nat → List Nat → List Nat → List Nat
  dec : List Nat → List Nat → List Nat → Option (List Nat)
  toJson : Container → List Nat
  fromJson : List Nat → Option Container
  dec_enc : ∀ k n p, dec k n (enc k n p) = some p
  dec_wrong_key : ∀ k k1 n p, k ≠ k1 → dec k1 n (enc k n p) = none
  enc_len : ∀ k n p, p.length < (enc k n p).length

/-- `cryptman::pass_2_key`: derive a 32-byte key from a password and salt.
An all-zero salt argument means "no salt supplied": a fresh random salt
(the `rand` parameter, standing for the `OsRng` draw) is used instead.
Returns the key together with the salt actually used. -/
def pass_2_key (prim : Prim) (rand : List Nat) (input : String) (salt : List Nat) :
    List Nat × List Nat :=
  let salt1 := if salt.all (fun x => x == 0) then rand else salt
  (prim.argon2 input salt1, salt1)

/-- `cryptman::encrypt_file_mem_with_salt`: AEAD-encrypt the data and append
the nonce and the salt, producing the envelope `ciphertext ++ nonce ++ salt`.
(The optional write of the same bytes to a destination path is I/O only.) -/
def encrypt_file_mem_with_salt (prim : Prim) (file_data key nonce salt : List Nat) :
    List Nat :=
  prim.enc key nonce file_data ++ nonce ++ salt

/-- Errors of `cryptman::decrypt_file_mem_gen_key`, one per `return Err` site:
the length guard, the empty-ciphertext guard, and AEAD failure. -/
inductive DecErr where
  | malformedEnvelope
  | emptyContent
  | decryptFailed
deriving DecidableEq, Repr

/-- `cryptman::decrypt_file_mem_gen_key`: parse the trailing 32 bytes as the
salt and the 24 bytes before them as the nonce, re-derive the key via
`pass_2_key` (with `rand` standing for the `OsRng` draw taken when the
stored salt is all zero), and AEAD-decrypt the leading bytes. -/
def decrypt_file_mem_gen_key (prim : Prim) (rand : List Nat) (file_data : List Nat)
    (pass : String) : Except DecErr (List Nat) :=
  let data_len := file_data.length
  if data_len < 32 + 24 then .error .malformedEnvelope
  else
    let salt := file_data.drop (data_len - 32)
    let nonce := (file_data.drop (data_len - 56)).take 24
    let key := (pass_2_key prim rand pass salt).1
    let encrypted_content := file_data.take (data_len - 56)
    if encrypted_content.isEmpty then .error .emptyContent
    else
      match prim.dec key nonce encrypted_content with
      | some d => .ok d
      | none => .error .decryptFailed

/-- The stored nonce of an envelope, as `decrypt_file_mem_gen_key` extracts
it: the 24 bytes preceding the trailing 32. -/
def nonceOfEnv (l : List Nat) : List Nat :=
  (l.drop (l.length - 56)).take 24

/-- The stored salt of an envelope, as `decrypt_file_mem_gen_key` extracts
it: the trailing 32 bytes. -/
def saltOfEnv (l : List Nat) : List Nat :=
  l.drop (l.length - 32)

/-- A toy instance of the XChaCha20Poly1305 AEAD interface used to witness
theorems that quantify over `Prim`: the "ciphertext" records the payload,
key and nonce with their lengths, so decryption can check the key and nonce
and recover the payload. -/
def toyEnc (k n p : List Nat) : List Nat :=
  p.length :: k.length :: n.length :: (p ++ k ++ n)

/-- Toy AEAD decryption inverting `toyEnc`: fails unless the embedded key
and nonce match the ones supplied. -/
def toyDec (k n c : List Nat) : Option (List Nat) :=
  match c with
  | lp :: lk :: ln :: rest =>
    if rest.length = lp + lk + ln ∧ (rest.drop lp).take lk = k ∧ rest.drop (lp + lk) = n
    then some (rest.take lp) else none
  | _ => none

theorem toyDec_toyEnc (k n p : List Nat) : toyDec k n (toyEnc k n p) = some p := by
  simp only [toyEnc, toyDec]
  have h1 : (p ++ k ++ n).length = p.length + k.length + n.length := by
    simp [List.length_append]
    omega
  have h2 : ((p ++ k ++ n).drop p.length).take k.length = k := by
    rw [List.append_assoc, List.drop_left, List.take_left]
  have h3 : (p ++ k ++ n).drop (p.length + k.length) = n := by
    have : p.length + k.length = (p ++ k).length := by simp [List.length_append]
    rw [this, List.drop_left]
  have h4 : (p ++ k ++ n).take p.length = p := by
    rw [List.append_assoc, List.take_left]
  simp [h1, h2, h3, h4]
  omega

theorem toyDec_wrong_key (k k1 n p : List Nat) (hne : k ≠ k1) :
    toyDec k1 n (toyEnc k n p) = none := by
  simp only [toyEnc, toyDec]
  have h2 : ((p ++ k ++ n).drop p.length).take k.length = k := by
    rw [List.append_assoc, List.drop_left, List.take_left]
  simp [h2]
  intro _ h
  exact hne h

theorem toyEnc_len (k n p : List Nat) : p.length < (toyEnc k n p).length := by
  simp [toyEnc]
  omega

/-- Toy Argon2: the key is the password length followed by the salt, so
different salts give different keys. -/
def toyArgon2 (pass : String) (salt : List Nat) : List Nat :=
  pass.length :: salt

/-- The concrete `Prim` instance built from the toy primitives, used by the
witness theorems. -/
def toyPrim : Prim where
  argon2 := toyArgon2
  enc := toyEnc
  dec := toyDec
  toJson := fun _ => []
  fromJson := fun _ => none
  dec_enc := toyDec_toyEnc
  dec_wrong_key := toyDec_wrong_key
  enc_len := toyEnc_len

example : pass_2_key toyPrim [1, 2] "pw" (List.replicate 32 0) = ([2, 1, 2], [1, 2]) := by
  decide

instance {ε α : Type} [DecidableEq ε] [DecidableEq α] : DecidableEq (Except ε α) :=
  fun x y =>
    match x, y with
    | .ok a, .ok b => if h : a = b then isTrue (by rw [h]) else isFalse (by simp [h])
    | .error a, .error b => if h : a = b then isTrue (by rw [h]) else isFalse (by simp [h])
    | .ok _, .error _ => isFalse (by simp)
    | .error _, .ok _ => isFalse (by simp)

example : decrypt_file_mem_gen_key toyPrim [] [1, 2, 3] "pw" = .error .malformedEnvelope := by
  decide

theorem sizeOf_lt_of_mem_children {kv : String × Container} {nm : String}
    {ch : List (String × Container)} {en : List (String × Entry)} {pr : String}
    (h : kv ∈ ch) : sizeOf kv.2 < sizeOf (Container.mk nm ch en pr) := by
  have h1 := List.sizeOf_lt_of_mem h
  obtain ⟨a, b⟩ := kv
  simp only [Prod.mk.sizeOf_spec] at h1
  simp only [Container.mk.sizeOf_spec]
  omega

/-- `passman::Container::new`: an empty container; a missing parent becomes
the string "none". -/
def Container.new (name : String) (parent : Option String) : Container :=
  .mk name [] []
    (match parent with
     | some n => n
     | none => "none")

/-- Replace the `parent` field of a container (the stamping done by
`add_child`). -/
def Container.withParent : Container → String → Container
  | .mk n ch en _, p => .mk n ch en p

/-- `passman::Container::add_entry`: stamp the entry's `parent` with this
container's name and insert it keyed by its `url`. -/
def Container.add_entry (c : Container) (entry : Entry) : Container :=
  .mk c.name c.children (insertAssoc entry.url { entry with parent := c.name } c.entries)
    c.parent

/-- `passman::Container::add_child`: stamp the child's `parent` with this
container's name and insert it keyed by the child's name. -/
def Container.add_child (c : Container) (container : Container) : Container :=
  .mk c.name (insertAssoc container.name (container.withParent c.name) c.children)
    c.entries c.parent

/-- `passman::Entry::new`. -/
def Entry.new (username : String) (pass_vec : List Nat) (email url : String) : Entry :=
  ⟨username, pass_vec, email, url, ""⟩

/-- `passman::Entry::encrypt_password`: seal `pass_vec` into an envelope
under the given key, nonce and salt. -/
def Entry.encrypt_password (prim : Prim) (key nonce salt : List Nat) (e : Entry) : Entry :=
  { e with pass_vec := encrypt_file_mem_with_salt prim e.pass_vec key nonce salt }

/-- `passman::Entry::decrypt_password`: open the envelope in `pass_vec` with
the password (`rand` stands for the `OsRng` draw inside `pass_2_key`). -/
def Entry.decrypt_password (prim : Prim) (rand : List Nat) (e : Entry) (password : String) :
    Except DecErr Entry :=
  match decrypt_file_mem_gen_key prim rand e.pass_vec password with
  | .ok v => .ok { e with pass_vec := v }
  | .error err => .error err

/-- `passman::get_all_entries`: the current container's entries, then each
child container's entries recursively. -/
def get_all_entries : Container → List Entry
  | .mk _ ch en _ =>
    en.map (fun kv => kv.2) ++ (ch.attach.map (fun kv => get_all_entries kv.1.2)).flatten
termination_by c => sizeOf c
decreasing_by exact sizeOf_lt_of_mem_children kv.2

/-- The body of the per-entry `match field_name` in
`passman::get_entries_by_field`: the singleton `[entry]` when the selected
field equals the target, `[]` otherwise (including unknown field names). -/
def fieldMatchList (field_name target_value : String) (e : Entry) : List Entry :=
  match field_name with
  | "url" => if e.url = target_value then [e] else []
  | "email" => if e.email = target_value then [e] else []
  | "parent" => if e.parent = target_value then [e] else []
  | "username" => if e.username = target_value then [e] else []
  | _ => []

/-- `passman::get_entries_by_field`: match the current container's entries
against the named field, then recurse into the children. -/
def get_entries_by_field : Container → String → String → List Entry
  | .mk _ ch en _, field_name, target_value =>
    (en.map (fun kv => fieldMatchList field_name target_value kv.2)).flatten ++
      (ch.attach.map (fun kv => get_entries_by_field kv.1.2 field_name target_value)).flatten
termination_by c => sizeOf c
decreasing_by exact sizeOf_lt_of_mem_children kv.2

/-- `passman::Container::encrypt_all_passwords`: seal every entry of the
container and of all its descendants with the one key, nonce and salt it is
given. -/
def Container.encrypt_all_passwords (prim : Prim) (key nonce salt : List Nat) :
    Container → Container
  | .mk nm ch en pr =>
    .mk nm
      (ch.attach.map (fun kv =>
        (kv.1.1, Container.encrypt_all_passwords prim key nonce salt kv.1.2)))
      (en.map (fun kv => (kv.1, Entry.encrypt_password prim key nonce salt kv.2)))
      pr
termination_by c => sizeOf c
decreasing_by exact sizeOf_lt_of_mem_children kv.2

/-- Structural induction over the container tree. -/
theorem Container.inductionOn {P : Container → Prop}
    (step : ∀ nm ch en pr, (∀ kv ∈ ch, P kv.2) → P (Container.mk nm ch en pr)) :
    ∀ c, P c
  | .mk nm ch en pr => step nm ch en pr (fun kv hkv => Container.inductionOn step kv.2)
termination_by c => sizeOf c
decreasing_by exact sizeOf_lt_of_mem_children hkv

theorem attach_map_fst {α β : Type} (l : List α) (f : α → β) :
    l.attach.map (fun x => f x.1) = l.map f :=
  List.attach_map_val l f

theorem get_all_entries_mk (nm : String) (ch : List (String × Container))
    (en : List (String × Entry)) (pr : String) :
    get_all_entries (.mk nm ch en pr) =
      en.map (fun kv => kv.2) ++ (ch.map (fun kv => get_all_entries kv.2)).flatten := by
  rw [get_all_entries, attach_map_fst ch (fun kv => get_all_entries kv.2)]

theorem get_entries_by_field_mk (nm : String) (ch : List (String × Container))
    (en : List (String × Entry)) (pr f v : String) :
    get_entries_by_field (.mk nm ch en pr) f v =
      (en.map (fun kv => fieldMatchList f v kv.2)).flatten ++
        (ch.map (fun kv => get_entries_by_field kv.2 f v)).flatten := by
  rw [get_entries_by_field, attach_map_fst ch (fun kv => get_entries_by_field kv.2 f v)]

theorem encrypt_all_passwords_mk (prim : Prim) (key nonce salt : List Nat) (nm : String)
    (ch : List (String × Container)) (en : List (String × Entry)) (pr : String) :
    Container.encrypt_all_passwords prim key nonce salt (.mk nm ch en pr) =
      .mk nm
        (ch.map (fun kv => (kv.1, Container.encrypt_all_passwords prim key nonce salt kv.2)))
        (en.map (fun kv => (kv.1, Entry.encrypt_password prim key nonce salt kv.2)))
        pr := by
  rw [Container.encrypt_all_passwords,
    attach_map_fst ch (fun kv => (kv.1, Container.encrypt_all_passwords prim key nonce salt kv.2))]

/-- `passman::encrypt_and_save_container`: derive a key with a fresh salt
(`rand`, via the all-zero placeholder), draw one `nonce`, encrypt every
entry's secret, serialize the tree and seal the serialized bytes under the
same key, nonce and salt.  The returned bytes are what is written to the
store file. -/
def encrypt_and_save_container (prim : Prim) (rand nonce : List Nat) (container : Container)
    (password : String) : List Nat :=
  let key_n_salt := pass_2_key prim rand password (List.replicate 32 0)
  let key := key_n_salt.1
  let salt := key_n_salt.2
  let container1 := Container.encrypt_all_passwords prim key nonce salt container
  encrypt_file_mem_with_salt prim (prim.toJson container1) key nonce salt

/-- Errors of `passman::load_and_decrypt_container`, one per `return Err`
site: unreadable file, decryption failure, deserialization failure. -/
inductive LoadErr where
  | readFailed
  | decryptErr (e : DecErr)
  | deserializeFailed
deriving DecidableEq, Repr

/-- `passman::load_and_decrypt_container`: read the store file (`disk` is
its contents, `none` when the read fails), decrypt it with the password and
deserialize the result into a container. -/
def load_and_decrypt_container (prim : Prim) (rand : List Nat) (disk : Option (List Nat))
    (container : Container) (password : String) : Except LoadErr Container :=
  match disk with
  | none => .error .readFailed
  | some enc_data =>
    match decrypt_file_mem_gen_key prim rand enc_data password with
    | .error e => .error (.decryptErr e)
    | .ok dec_res =>
      match prim.fromJson dec_res with
      | some c => .ok c
      | none => .error .deserializeFailed

/-- The session state of `main.rs` (`struct State`), minus the constant
store path: the in-memory tree and the cached session password. -/
structure State where
  current_container : Container
  last_pass : String

/-- `main::open_store`: load and decrypt the store. -/
def open_store (prim : Prim) (rand : List Nat) (disk : Option (List Nat)) (store : Container)
    (pass : String) : Except LoadErr Container :=
  load_and_decrypt_container prim rand disk store pass

/-- The response text `handle_open` produces for a load error. -/
def openErrorMsg (_ : LoadErr) : String :=
  "error opening store"

/-- `main::handle_open`: an empty password is rejected; otherwise the
supplied password is cached only when no session password is cached yet, and
the store is opened with the cached password; on failure the cached password
is cleared. -/
def handle_open (prim : Prim) (rand : List Nat) (disk : Option (List Nat)) (state : State)
    (arg1 : String) : State × String :=
  if arg1 = "" then (state, "password required. Container is locked.")
  else
    let state1 := if state.last_pass = "" then { state with last_pass := arg1 } else state
    match open_store prim rand disk state1.current_container state1.last_pass with
    | .ok new_container =>
      ({ state1 with current_container := new_container },
        "Password accepted, pass store opened.")
    | .error e => ({ state1 with last_pass := "" }, openErrorMsg e)

/-- The error of `main::create_child`'s `ok_or_else` (child lookup failed
right after ensuring it exists; unreachable in practice). -/
inductive ChildErr where
  | failedGetChild
deriving DecidableEq, Repr

/-- The recursive helper `add_to_container` inside `main::create_child`:
ensure the first path segment exists as a child, then recurse into (a clone
of) that child with the remaining segments — returning the result of the
recursion, i.e. the container at the deepest segment. -/
def add_to_container (container : Container) (parts : List String) :
    Except ChildErr Container :=
  match parts with
  | [] => .ok container
  | part :: rest =>
    let container1 :=
      if containsKey part container.children then container
      else container.add_child (Container.new part none)
    match lookupAssoc part container1.children with
    | some child_container => add_to_container child_container rest
    | none => .error .failedGetChild

/-- `str::split('.')` over the characters: split at every dot, keeping empty
pieces (so the empty string yields one empty piece). -/
def splitDotAux : List Char → List Char → List String
  | [], acc => [⟨acc.reverse⟩]
  | c :: cs, acc => if c = '.' then ⟨acc.reverse⟩ :: splitDotAux cs [] else splitDotAux cs (c :: acc)

/-- `name.split('.')` as used by `create_child` and `add_entry_to_container`. -/
def splitDots (s : String) : List String :=
  splitDotAux s.data []

/-- `main::create_child`: split the dotted path and run `add_to_container`
from the current store. -/
def create_child (current_store : Container) (name : String) : Except ChildErr Container :=
  add_to_container current_store (splitDots name)

/-- `main::get_all`: decrypt the secret of every entry of the tree with the
session password; the first failure aborts. -/
def get_all (prim : Prim) (rand : List Nat) (store : Container) (password : String) :
    Except DecErr (List Entry) :=
  (get_all_entries store).mapM (fun e => Entry.decrypt_password prim rand e password)

/-- `main::get_entries_by_field` (the wrapper in `main.rs`): query by field,
then decrypt each matching entry's secret with the session password. -/
def get_entries_by_field_cmd (prim : Prim) (rand : List Nat) (store : Container)
    (target_field target_value password : String) : Except DecErr (List Entry) :=
  (get_entries_by_field store target_field target_value).mapM
    (fun e => Entry.decrypt_password prim rand e password)

/-- The observable outcome of `main::handle_get`: either a table of entries
(the argument of `format_structs_as_table`) or a plain message. -/
inductive GetOutcome where
  | table (entries : List Entry)
  | msg (s : String)
deriving DecidableEq, Repr

/-- `main::handle_get`: the first positional argument is ignored (`_` in the
Rust signature); `arg2` selects `all`/`*` or the field name and `arg3` the
value; query errors degrade to an empty table. -/
def handle_get (prim : Prim) (rand : List Nat) (state_container : Container)
    (last_pass : String) (_arg1 arg2 arg3 : String) : GetOutcome :=
  if arg2 = "all" ∨ arg2 = "*" then
    .table
      (match get_all prim rand state_container last_pass with
       | .ok entries => entries
       | .error _ => [])
  else if arg2 = "" then .msg "provide a target field"
  else if arg3 = "" then .msg "provide a value to search by"
  else
    .table
      (match get_entries_by_field_cmd prim rand state_container arg2 arg3 last_pass with
       | .ok entries => entries
       | .error _ => [])

/-- Strip one occurrence of the pattern from the end of the list as long as
it is there (the inner `while` of `main::clean_arg`, on one end pattern).
The fuel argument bounds the recursion by the list length. -/
def dropSuffixRepFuel (pat : List Char) : Nat → List Char → List Char
  | 0, l => l
  | fuel + 1, l =>
    if pat ≠ [] ∧ pat.reverse.isPrefixOf l.reverse then
      dropSuffixRepFuel pat fuel (l.take (l.length - pat.length))
    else l

/-- Repeatedly strip a trailing pattern. -/
def dropSuffixRep (pat l : List Char) : List Char :=
  dropSuffixRepFuel pat l.length l

/-- `main::clean_arg`: strip all leading double quotes, then repeatedly
strip the trailing patterns `",` and then `"]`. -/
def clean_arg (s : String) : String :=
  let l := s.data.dropWhile (fun c => c = '"')
  let l1 := dropSuffixRep ['"', ','] l
  let l2 := dropSuffixRep ['"', ']'] l1
  ⟨l2⟩

/-- `str::split_whitespace` over the characters: maximal runs of
non-whitespace characters, with no empty tokens. -/
def splitWsAux : List Char → List Char → List String
  | [], acc => if acc.isEmpty then [] else [⟨acc.reverse⟩]
  | c :: cs, acc =>
    if c.isWhitespace then
      if acc.isEmpty then splitWsAux cs [] else ⟨acc.reverse⟩ :: splitWsAux cs []
    else splitWsAux cs (c :: acc)

/-- The tokenization of `main::input_from_client`: `split_whitespace`. -/
def requestTokens (input : String) : List String :=
  splitWsAux input.data []

/-- The argument extraction of `main::input_from_client`: token 0 is
skipped, token 1 is the command and tokens 2..4 are the three positional
arguments, each cleaned with `clean_arg`; missing tokens are empty. -/
def client_args (input : String) : String × String × String × String :=
  let args := requestTokens input
  (clean_arg (args.getD 1 ""), clean_arg (args.getD 2 ""), clean_arg (args.getD 3 ""),
    clean_arg (args.getD 4 ""))

theorem length_append3 (ct n s : List Nat) (hn : n.length = 24) (hs : s.length = 32) :
    (ct ++ n ++ s).length = ct.length + 56 := by
  simp [List.length_append, hn, hs]

theorem saltOfEnv_append (ct n s : List Nat) (hn : n.length = 24) (hs : s.length = 32) :
    saltOfEnv (ct ++ n ++ s) = s := by
  unfold saltOfEnv
  rw [length_append3 ct n s hn hs]
  have h1 : ct.length + 56 - 32 = (ct ++ n).length := by
    rw [List.length_append, hn]
    omega
  rw [h1, List.drop_left]

theorem nonceOfEnv_append (ct n s : List Nat) (hn : n.length = 24) (hs : s.length = 32) :
    nonceOfEnv (ct ++ n ++ s) = n := by
  unfold nonceOfEnv
  rw [length_append3 ct n s hn hs]
  have h1 : ct.length + 56 - 56 = ct.length := by omega
  rw [h1, List.append_assoc, List.drop_left, ← hn, List.take_left]

theorem content_append (ct n s : List Nat) (hn : n.length = 24) (hs : s.length = 32) :
    (ct ++ n ++ s).take ((ct ++ n ++ s).length - 56) = ct := by
  rw [length_append3 ct n s hn hs]
  have h1 : ct.length + 56 - 56 = ct.length := by omega
  rw [h1, List.append_assoc, List.take_left]

theorem pass_2_key_zero_salt (prim : Prim) (rand : List Nat) (pass : String) :
    pass_2_key prim rand pass (List.replicate 32 0) = (prim.argon2 pass rand, rand) := by
  have h : (List.replicate 32 0).all (fun x : Nat => x == 0) = true := by decide
  simp [pass_2_key, h]

theorem pass_2_key_nonzero_salt (prim : Prim) (rand : List Nat) (pass : String)
    (salt : List Nat) (h : salt.all (fun x => x == 0) = false) :
    pass_2_key prim rand pass salt = (prim.argon2 pass salt, salt) := by
  simp [pass_2_key, h]

theorem decrypt_append (prim : Prim) (rand : List Nat) (pass : String) (ct n s : List Nat)
    (hn : n.length = 24) (hs : s.length = 32) (hct : ct ≠ []) :
    decrypt_file_mem_gen_key prim rand (ct ++ n ++ s) pass =
      match prim.dec (pass_2_key prim rand pass s).1 n ct with
      | some d => .ok d
      | none => .error .decryptFailed := by
  unfold decrypt_file_mem_gen_key
  have hlen : (ct ++ n ++ s).length = ct.length + 56 := length_append3 ct n s hn hs
  have hnot : ¬ (ct ++ n ++ s).length < 32 + 24 := by omega
  have hsalt : (ct ++ n ++ s).drop ((ct ++ n ++ s).length - 32) = s := saltOfEnv_append ct n s hn hs
  have hnonce : ((ct ++ n ++ s).drop ((ct ++ n ++ s).length - 56)).take 24 = n := by
    have := nonceOfEnv_append ct n s hn hs
    unfold nonceOfEnv at this
    exact this
  have hcontent : (ct ++ n ++ s).take ((ct ++ n ++ s).length - 56) = ct :=
    content_append ct n s hn hs
  have hempty : ct.isEmpty = false := by
    cases ct with
    | nil => exact absurd rfl hct
    | cons a t => rfl
  simp only [hnot, if_false, hsalt, hcontent, hnonce, hempty, Bool.false_eq_true]

theorem decrypt_append_nil (prim : Prim) (rand : List Nat) (pass : String) (n s : List Nat)
    (hn : n.length = 24) (hs : s.length = 32) :
    decrypt_file_mem_gen_key prim rand (n ++ s) pass = .error .emptyContent := by
  unfold decrypt_file_mem_gen_key
  have hlen : (n ++ s).length = 56 := by simp [List.length_append, hn, hs]
  have hnot : ¬ (n ++ s).length < 32 + 24 := by omega
  have hcontent : (n ++ s).take ((n ++ s).length - 56) = [] := by
    rw [hlen]
    simp
  simp only [hnot, if_false, hcontent]
  rfl

theorem get_all_entries_encrypt_all (prim : Prim) (key nonce salt : List Nat) :
    ∀ c : Container,
      get_all_entries (Container.encrypt_all_passwords prim key nonce salt c) =
        (get_all_entries c).map (Entry.encrypt_password prim key nonce salt) := by
  apply Container.inductionOn
  intro nm ch en pr ih
  rw [encrypt_all_passwords_mk, get_all_entries_mk, get_all_entries_mk, List.map_append]
  congr 1
  · rw [List.map_map, List.map_map]
    rfl
  · rw [List.map_map, List.map_flatten, List.map_map]
    congr 1
    apply List.map_congr_left
    intro kv hkv
    simp only [Function.comp]
    exact ih kv hkv

/-- The per-entry test of `get_entries_by_field` as a boolean predicate:
does the named field of the entry equal the target value?  Unknown field
names match nothing. -/
def matchesField (field_name target_value : String) (e : Entry) : Bool :=
  match field_name with
  | "url" => e.url == target_value
  | "email" => e.email == target_value
  | "parent" => e.parent == target_value
  | "username" => e.username == target_value
  | _ => false

theorem fieldMatchList_eq (f v : String) (e : Entry) :
    fieldMatchList f v e = if matchesField f v e then [e] else [] := by
  by_cases h1 : f = "url"
  · subst h1; simp [fieldMatchList, matchesField, beq_iff_eq]
  by_cases h2 : f = "email"
  · subst h2; simp [fieldMatchList, matchesField, beq_iff_eq]
  by_cases h3 : f = "parent"
  · subst h3; simp [fieldMatchList, matchesField, beq_iff_eq]
  by_cases h4 : f = "username"
  · subst h4; simp [fieldMatchList, matchesField, beq_iff_eq]
  · simp [fieldMatchList, matchesField, h1, h2, h3, h4]

theorem flatten_fieldMatchList (f v : String) : ∀ l : List Entry,
    (l.map (fieldMatchList f v)).flatten = l.filter (matchesField f v) := by
  intro l
  induction l with
  | nil => rfl
  | cons e t ih =>
    rw [List.map_cons, List.flatten_cons, ih, List.filter_cons, fieldMatchList_eq]
    by_cases h : matchesField f v e
    · simp [h]
    · simp [h]

theorem flatten_filter (p : Entry → Bool) : ∀ L : List (List Entry),
    L.flatten.filter p = (L.map (List.filter p)).flatten := by
  intro L
  induction L with
  | nil => rfl
  | cons l t ih => rw [List.flatten_cons, List.filter_append, ih, List.map_cons,
      List.flatten_cons]

theorem get_entries_by_field_filter (f v : String) :
    ∀ c : Container,
      get_entries_by_field c f v = (get_all_entries c).filter (matchesField f v) := by
  apply Container.inductionOn
  intro nm ch en pr ih
  rw [get_entries_by_field_mk, get_all_entries_mk, List.filter_append]
  congr 1
  · rw [← flatten_fieldMatchList, List.map_map]
    rfl
  · rw [flatten_filter, List.map_map]
    congr 1
    apply List.map_congr_left
    intro kv hkv
    simp only [Function.comp]
    exact ih kv hkv

example : requestTokens "a bc  d " = ["a", "bc", "d"] := by decide

example : splitDots "a.b" = ["a", "b"] := by decide

example : clean_arg "\"get\"," = "get" := by decide

example : clean_arg "\"all\"]" = "all" := by decide

/-- Sample 32-byte random salt (all ones, hence not the all-zero
placeholder). -/
def sampleRand : List Nat := List.replicate 32 1

/-- Sample 24-byte nonce. -/
def sampleNonce : List Nat := List.replicate 24 2

/-- The key/salt pair `encrypt_and_save_container` derives from password
"pw" with the sample randomness, under the toy primitives. -/
def sampleKns : List Nat × List Nat := pass_2_key toyPrim sampleRand "pw" (List.replicate 32 0)

/-- A sample entry. -/
def sampleE1 : Entry := ⟨"u1", [7], "m1", "a", "root"⟩

/-- A second sample entry, distinct from the first. -/
def sampleE2 : Entry := ⟨"u2", [8], "m2", "b", "root"⟩

/-- A container holding the two sample entries. -/
def sampleTwoEntries : Container := .mk "root" [] [("a", sampleE1), ("b", sampleE2)] "none"

/-- A container holding only the first sample entry. -/
def sampleOneEntry : Container := .mk "root" [] [("a", sampleE1)] "none"

/-- The first sample entry sealed with the session key material, as one
save does. -/
def sampleSealedE1 : Entry :=
  Entry.encrypt_password toyPrim sampleKns.1 sampleNonce sampleKns.2 sampleE1

/-- The second sample entry sealed with the same session key material. -/
def sampleSealedE2 : Entry :=
  Entry.encrypt_password toyPrim sampleKns.1 sampleNonce sampleKns.2 sampleE2

/-- The store file bytes produced by saving the one-entry container. -/
def sampleSave : List Nat :=
  encrypt_and_save_container toyPrim sampleRand sampleNonce sampleOneEntry "pw"

/-- The intermediate tree the save encrypts: every entry sealed with the
session key material. -/
def sampleInnerTree : Container :=
  Container.encrypt_all_passwords toyPrim sampleKns.1 sampleNonce sampleKns.2 sampleOneEntry

/-- A 56-byte envelope: salt and nonce only, no ciphertext. -/
def env56 : List Nat := List.replicate 56 1

/-- An entry whose `parent` field is "p", for the field-query claims. -/
def sampleE8 : Entry := ⟨"u", [1], "m", "w", "p"⟩

/-- A container holding `sampleE8`. -/
def sampleC8 : Container := .mk "root" [] [("w", sampleE8)] "none"

/-- C5: `create_child` on the fresh store "store" with path "a.b" does not
return the original tree with the path created: it returns the bare leaf
container "b" (parent "a", no children, no entries), discarding the root
and everything else in the store.  The claim's description — the original
tree from its root with a container at each path segment, unchanged when
the segments exist — fails; the spec describes the intent and the code
drops the tree. -/
theorem create_child_returns_leaf_not_root :
    create_child (Container.new "store" none) "a.b" = .ok (Container.mk "b" [] [] "a") := by
  rfl

/-- C7 counterexample: a 56-byte envelope is not rejected as malformed, but
`open` does not proceed to decryption either — it fails with the
empty-content error after key derivation, so "proceeds to key derivation
and decryption" is false at length exactly 56. -/
theorem open_len56_is_empty_content_error :
    env56.length = 56 ∧
    decrypt_file_mem_gen_key toyPrim [] env56 "pw" = .error .emptyContent := by
  refine ⟨by decide, by decide⟩

/-- C7 (amended): `open` fails with the malformed-envelope error exactly
when the envelope is shorter than 56 bytes; an envelope `ct ++ n ++ s` with
24-byte `n` and 32-byte `s` is split into salt `s`, nonce `n` and
ciphertext `ct`; when `ct` is non-empty the result is the AEAD decryption
of `ct` under the key derived from `s`, and when `ct` is empty (length
exactly 56) the result is the empty-content error, decryption not being
attempted. -/
theorem open_envelope_length_guard_and_split :
    ∀ (prim : Prim) (rand : List Nat) (pass : String),
      (∀ data : List Nat,
        decrypt_file_mem_gen_key prim rand data pass = .error .malformedEnvelope ↔
          data.length < 56) ∧
      (∀ ct n s : List Nat, n.length = 24 → s.length = 32 → ct ≠ [] →
        decrypt_file_mem_gen_key prim rand (ct ++ n ++ s) pass =
          match prim.dec (pass_2_key prim rand pass s).1 n ct with
          | some d => .ok d
          | none => .error .decryptFailed) ∧
      (∀ n s : List Nat, n.length = 24 → s.length = 32 →
        decrypt_file_mem_gen_key prim rand (n ++ s) pass = .error .emptyContent) := by
  intro prim rand pass
  refine ⟨?_, decrypt_append prim rand pass, decrypt_append_nil prim rand pass⟩
  intro data
  constructor
  · intro h
    by_contra hlen
    have hlen2 : ¬ data.length < 32 + 24 := by omega
    unfold decrypt_file_mem_gen_key at h
    simp only [hlen2, if_false] at h
    by_cases hempty : (data.take (data.length - 56)).isEmpty
    · simp [hempty] at h
    · simp only [hempty, Bool.false_eq_true, if_false] at h
      cases hdec : prim.dec ((pass_2_key prim rand pass (data.drop (data.length - 32))).1)
          ((data.drop (data.length - 56)).take 24) (data.take (data.length - 56)) with
      | some d => rw [hdec] at h; exact Except.noConfusion h
      | none => rw [hdec] at h; simp at h
  · intro hlen
    have hlen2 : data.length < 32 + 24 := by omega
    unfold decrypt_file_mem_gen_key
    simp [hlen2]

/-- C7 witness: the length guard, the split and the empty-content case
evaluated at concrete envelopes under the toy primitives. -/
theorem open_envelope_length_guard_and_split_witness :
    decrypt_file_mem_gen_key toyPrim [] [1, 2, 3] "pw" = .error .malformedEnvelope ∧
    decrypt_file_mem_gen_key toyPrim [] ([9] ++ sampleNonce ++ sampleRand) "pw" =
      (match toyPrim.dec (pass_2_key toyPrim [] "pw" sampleRand).1 sampleNonce [9] with
       | some d => .ok d
       | none => .error .decryptFailed) ∧
    decrypt_file_mem_gen_key toyPrim [] (sampleNonce ++ sampleRand) "pw" =
      .error .emptyContent :=
  ⟨((open_envelope_length_guard_and_split toyPrim [] "pw").1 [1, 2, 3]).mpr (by decide),
    (open_envelope_length_guard_and_split toyPrim [] "pw").2.1 [9] sampleNonce sampleRand
      (by decide) (by decide) (by decide),
    (open_envelope_length_guard_and_split toyPrim [] "pw").2.2 sampleNonce sampleRand
      (by decide) (by decide)⟩

/-- C4: envelope round-trip.  For any payload, password and well-formed
fresh randomness (24-byte nonce and 32-byte generated salt that is not the
all-zero placeholder), opening the envelope sealed under the key and salt
that `pass_2_key` derives from the password returns exactly the payload. -/
theorem seal_open_roundtrip :
    ∀ (prim : Prim) (rand rand2 nonce : List Nat) (pass : String) (p : List Nat),
      rand.length = 32 → nonce.length = 24 → rand.all (fun x => x == 0) = false →
      decrypt_file_mem_gen_key prim rand2
        (encrypt_file_mem_with_salt prim p
          (pass_2_key prim rand pass (List.replicate 32 0)).1 nonce
          (pass_2_key prim rand pass (List.replicate 32 0)).2) pass = .ok p := by
  intro prim rand rand2 nonce pass p h32 h24 hnz
  rw [pass_2_key_zero_salt]
  unfold encrypt_file_mem_with_salt
  have hct : prim.enc (prim.argon2 pass rand) nonce p ≠ [] := by
    have := prim.enc_len (prim.argon2 pass rand) nonce p
    intro hnil
    rw [hnil] at this
    simp at this
  rw [decrypt_append prim rand2 pass _ nonce rand h24 h32 hct,
    pass_2_key_nonzero_salt prim rand2 pass rand hnz]
  rw [prim.dec_enc]

/-- C4 witness: the round-trip evaluated at a concrete payload, password
and randomness under the toy primitives. -/
theorem seal_open_roundtrip_witness :
    sampleRand.length = 32 ∧ sampleNonce.length = 24 ∧
    sampleRand.all (fun x => x == 0) = false ∧
    decrypt_file_mem_gen_key toyPrim []
      (encrypt_file_mem_with_salt toyPrim [7]
        (pass_2_key toyPrim sampleRand "pw" (List.replicate 32 0)).1 sampleNonce
        (pass_2_key toyPrim sampleRand "pw" (List.replicate 32 0)).2) "pw" = .ok [7] :=
  ⟨by decide, by decide, by decide,
    seal_open_roundtrip toyPrim sampleRand [] sampleNonce "pw" [7]
      (by decide) (by decide) (by decide)⟩

/-- C10: on an envelope whose stored (trailing 32-byte) salt is all zero,
`pass_2_key` ignores the stored salt and derives the key from a freshly
generated random salt; consequently, whenever that fresh derivation differs
from the key the envelope was sealed under, decryption fails. -/
theorem zero_salt_envelope_fresh_salt_derivation :
    ∀ (prim : Prim) (rand key nonce p : List Nat) (pass : String),
      nonce.length = 24 →
      pass_2_key prim rand pass (List.replicate 32 0) = (prim.argon2 pass rand, rand) ∧
      (prim.argon2 pass rand ≠ key →
        decrypt_file_mem_gen_key prim rand
          (prim.enc key nonce p ++ nonce ++ List.replicate 32 0) pass =
          .error .decryptFailed) := by
  intro prim rand key nonce p pass h24
  refine ⟨pass_2_key_zero_salt prim rand pass, ?_⟩
  intro hne
  have hct : prim.enc key nonce p ≠ [] := by
    have := prim.enc_len key nonce p
    intro hnil
    rw [hnil] at this
    simp at this
  rw [decrypt_append prim rand pass _ nonce (List.replicate 32 0) h24 (by decide) hct,
    pass_2_key_zero_salt prim rand pass]
  rw [prim.dec_wrong_key key (prim.argon2 pass rand) nonce p (fun h => hne h.symm)]

/-- C10 witness: a concrete envelope sealed under key [9, 9, 9] with an
all-zero stored salt, opened with the toy primitives: the derivation uses
the fresh salt and decryption fails. -/
theorem zero_salt_envelope_fresh_salt_derivation_witness :
    pass_2_key toyPrim sampleRand "pw" (List.replicate 32 0) =
      (toyPrim.argon2 "pw" sampleRand, sampleRand) ∧
    toyPrim.argon2 "pw" sampleRand ≠ [9, 9, 9] ∧
    decrypt_file_mem_gen_key toyPrim sampleRand
      (toyPrim.enc [9, 9, 9] sampleNonce [5] ++ sampleNonce ++ List.replicate 32 0) "pw" =
      .error .decryptFailed :=
  ⟨(zero_salt_envelope_fresh_salt_derivation toyPrim sampleRand [9, 9, 9] sampleNonce [5] "pw"
      (by decide)).1,
    by decide,
    (zero_salt_envelope_fresh_salt_derivation toyPrim sampleRand [9, 9, 9] sampleNonce [5] "pw"
      (by decide)).2 (by decide)⟩

theorem sealed_entry_env (prim : Prim) (key nonce salt : List Nat) (e : Entry)
    (hn : nonce.length = 24) (hs : salt.length = 32) :
    nonceOfEnv (Entry.encrypt_password prim key nonce salt e).pass_vec = nonce ∧
    saltOfEnv (Entry.encrypt_password prim key nonce salt e).pass_vec = salt := by
  constructor
  · show nonceOfEnv (prim.enc key nonce e.pass_vec ++ nonce ++ salt) = nonce
    exact nonceOfEnv_append _ _ _ hn hs
  · show saltOfEnv (prim.enc key nonce e.pass_vec ++ nonce ++ salt) = salt
    exact saltOfEnv_append _ _ _ hn hs

/-- C2: a save does not leave an already-sealed secret as-is.
`encrypt_all_passwords` (as invoked by `encrypt_and_save_container`) maps
every entry of the tree — sealed or not — through a further
`encrypt_password`, and the re-sealed secret always differs from the
original (the envelope strictly grows).  So an entry sealed at insertion by
`new-entry` is encrypted a second time by the next save. -/
theorem save_reseals_every_secret :
    ∀ (prim : Prim) (key nonce salt : List Nat) (cont : Container),
      get_all_entries (Container.encrypt_all_passwords prim key nonce salt cont) =
        (get_all_entries cont).map (Entry.encrypt_password prim key nonce salt) ∧
      ∀ e : Entry, (Entry.encrypt_password prim key nonce salt e).pass_vec ≠ e.pass_vec := by
  intro prim key nonce salt cont
  refine ⟨get_all_entries_encrypt_all prim key nonce salt cont, ?_⟩
  intro e heq
  have hl := congrArg List.length heq
  simp only [Entry.encrypt_password, encrypt_file_mem_with_salt, List.length_append] at hl
  have hgt := prim.enc_len key nonce e.pass_vec
  omega

/-- C1: during one save, every entry of the tree is sealed with the single
nonce drawn once by `encrypt_and_save_container` — for any two entries of
the saved tree the stored nonces are equal (both are that one nonce), not
fresh and distinct per entry as the claim requires. -/
theorem save_single_nonce_shared_across_entries :
    ∀ (prim : Prim) (rand nonce : List Nat) (cont : Container) (pass : String),
      rand.length = 32 → nonce.length = 24 →
      ∀ e1 e2 : Entry,
        e1 ∈ get_all_entries (Container.encrypt_all_passwords prim
          (pass_2_key prim rand pass (List.replicate 32 0)).1 nonce
          (pass_2_key prim rand pass (List.replicate 32 0)).2 cont) →
        e2 ∈ get_all_entries (Container.encrypt_all_passwords prim
          (pass_2_key prim rand pass (List.replicate 32 0)).1 nonce
          (pass_2_key prim rand pass (List.replicate 32 0)).2 cont) →
        nonceOfEnv e1.pass_vec = nonce ∧ nonceOfEnv e2.pass_vec = nonce := by
  intro prim rand nonce cont pass h32 h24 e1 e2 h1 h2
  rw [pass_2_key_zero_salt] at h1 h2
  rw [get_all_entries_encrypt_all] at h1 h2
  obtain ⟨a1, _, rfl⟩ := List.mem_map.mp h1
  obtain ⟨a2, _, rfl⟩ := List.mem_map.mp h2
  exact ⟨(sealed_entry_env prim _ nonce rand a1 h24 h32).1,
    (sealed_entry_env prim _ nonce rand a2 h24 h32).1⟩

/-- C1 witness: a two-entry container saved with the toy primitives; both
sealed entries carry the same stored nonce. -/
theorem save_single_nonce_shared_across_entries_witness :
    sampleRand.length = 32 ∧ sampleNonce.length = 24 ∧
    nonceOfEnv sampleSealedE1.pass_vec = sampleNonce ∧
    nonceOfEnv sampleSealedE2.pass_vec = sampleNonce := by
  have h1 : sampleSealedE1 ∈ get_all_entries (Container.encrypt_all_passwords toyPrim
      (pass_2_key toyPrim sampleRand "pw" (List.replicate 32 0)).1 sampleNonce
      (pass_2_key toyPrim sampleRand "pw" (List.replicate 32 0)).2 sampleTwoEntries) := by
    simp only [sampleTwoEntries, encrypt_all_passwords_mk, get_all_entries_mk]
    simp [sampleSealedE1, sampleKns]
  have h2 : sampleSealedE2 ∈ get_all_entries (Container.encrypt_all_passwords toyPrim
      (pass_2_key toyPrim sampleRand "pw" (List.replicate 32 0)).1 sampleNonce
      (pass_2_key toyPrim sampleRand "pw" (List.replicate 32 0)).2 sampleTwoEntries) := by
    simp only [sampleTwoEntries, encrypt_all_passwords_mk, get_all_entries_mk]
    simp [sampleSealedE2, sampleKns]
  have hmain := save_single_nonce_shared_across_entries toyPrim sampleRand sampleNonce
    sampleTwoEntries "pw" (by decide) (by decide) sampleSealedE1 sampleSealedE2 h1 h2
  exact ⟨by decide, by decide, hmain.1, hmain.2⟩

/-- C3 counterexample: saving a one-entry container with the toy
primitives, the outer (whole-store) envelope carries exactly the same
stored salt and nonce as the inner (per-secret) envelope — not an
independent second derivation. -/
theorem save_layers_share_salt_nonce_counterexample :
    get_all_entries sampleInnerTree = [sampleSealedE1] ∧
    saltOfEnv sampleSave = saltOfEnv sampleSealedE1.pass_vec ∧
    nonceOfEnv sampleSave = nonceOfEnv sampleSealedE1.pass_vec := by
  refine ⟨?_, by decide, by decide⟩
  simp only [sampleInnerTree, sampleOneEntry, encrypt_all_passwords_mk, get_all_entries_mk]
  simp [sampleSealedE1, sampleKns]

/-- C3 (amended): one save derives a single key/salt pair (salt = the one
random draw) and a single nonce, and uses that same salt, nonce and key
both for every per-entry envelope and for the outer whole-store envelope;
the two layers are not independently salted/nonced/keyed. -/
theorem save_outer_layer_reuses_inner_salt_nonce :
    ∀ (prim : Prim) (rand nonce : List Nat) (cont : Container) (pass : String),
      rand.length = 32 → nonce.length = 24 →
      saltOfEnv (encrypt_and_save_container prim rand nonce cont pass) = rand ∧
      nonceOfEnv (encrypt_and_save_container prim rand nonce cont pass) = nonce ∧
      ∀ e : Entry,
        e ∈ get_all_entries (Container.encrypt_all_passwords prim
          (pass_2_key prim rand pass (List.replicate 32 0)).1 nonce
          (pass_2_key prim rand pass (List.replicate 32 0)).2 cont) →
        saltOfEnv e.pass_vec = rand ∧ nonceOfEnv e.pass_vec = nonce := by
  intro prim rand nonce cont pass h32 h24
  refine ⟨?_, ?_, ?_⟩
  · unfold encrypt_and_save_container encrypt_file_mem_with_salt
    rw [pass_2_key_zero_salt]
    exact saltOfEnv_append _ _ _ h24 h32
  · unfold encrypt_and_save_container encrypt_file_mem_with_salt
    rw [pass_2_key_zero_salt]
    exact nonceOfEnv_append _ _ _ h24 h32
  · intro e he
    rw [pass_2_key_zero_salt, get_all_entries_encrypt_all] at he
    obtain ⟨a, _, rfl⟩ := List.mem_map.mp he
    exact ⟨(sealed_entry_env prim _ nonce rand a h24 h32).2,
      (sealed_entry_env prim _ nonce rand a h24 h32).1⟩

/-- C3 witness: the amended statement evaluated on the one-entry container
under the toy primitives. -/
theorem save_outer_layer_reuses_inner_salt_nonce_witness :
    sampleRand.length = 32 ∧ sampleNonce.length = 24 ∧
    saltOfEnv sampleSave = sampleRand ∧ nonceOfEnv sampleSave = sampleNonce := by
  have hmain := save_outer_layer_reuses_inner_salt_nonce toyPrim sampleRand sampleNonce
    sampleOneEntry "pw" (by decide) (by decide)
  exact ⟨by decide, by decide, hmain.1, hmain.2.1⟩

/-- C8 counterexample: an entry whose `parent` field is "p" is in the tree,
yet querying field name "parent_name" (the spec's name for that field)
returns the empty list — the code's match arm for the parent field is the
string "parent", and "parent_name" falls through to the catch-all. -/
theorem field_query_parent_name_counterexample :
    get_entries_by_field sampleC8 "parent_name" "p" = [] ∧
    sampleE8.parent = "p" ∧
    sampleE8 ∈ get_all_entries sampleC8 := by
  refine ⟨?_, by decide, ?_⟩
  · simp only [sampleC8, get_entries_by_field_mk]
    simp [fieldMatchList]
  · simp only [sampleC8, get_all_entries_mk]
    simp

/-- C8 (amended): `get_entries_by_field` returns exactly the entries of the
whole tree (in traversal order) whose named field equals the value for the
field names "username", "email", "url" and "parent" (the code's name for
the spec's `parent_name`), and the empty list for any other field name —
including "parent_name" itself. -/
theorem field_query_matches_filter :
    ∀ (cont : Container) (f v : String),
      get_entries_by_field cont f v = (get_all_entries cont).filter (matchesField f v) ∧
      (f ≠ "url" → f ≠ "email" → f ≠ "parent" → f ≠ "username" →
        get_entries_by_field cont f v = []) := by
  intro cont f v
  refine ⟨get_entries_by_field_filter f v cont, ?_⟩
  intro h1 h2 h3 h4
  rw [get_entries_by_field_filter f v cont]
  have hall : ∀ e : Entry, matchesField f v e = false := by
    intro e
    simp [matchesField, h1, h2, h3, h4]
  simp [hall]

/-- C8 witness: querying an unknown field name on the sample container
yields the empty list, via the amended theorem. -/
theorem field_query_matches_filter_witness :
    ("parent_name" : String) ≠ "url" ∧
    get_entries_by_field sampleC8 "parent_name" "x" = [] :=
  ⟨by decide,
    (field_query_matches_filter sampleC8 "parent_name" "x").2 (by decide) (by decide)
      (by decide) (by decide)⟩

/-- C9: `handle_get` ignores its first positional argument (request token
2) entirely; the `all`/`*` selector or field name is read from the second
positional argument (token 3) and the value from the third (token 4).  In
particular the spec's own usage — `get` with token 2 = `all`, as the
bundled client sends it — is answered with "provide a target field" rather
than the table of all entries; and the extraction in `input_from_client`
indeed maps tokens 2..4 of the request line to the three arguments. -/
theorem handle_get_ignores_first_argument :
    (∀ (prim : Prim) (rand : List Nat) (cont : Container) (pass a1 b1 a2 a3 : String),
      handle_get prim rand cont pass a1 a2 a3 = handle_get prim rand cont pass b1 a2 a3) ∧
    (∀ (prim : Prim) (rand : List Nat) (cont : Container) (pass a1 a3 : String),
      handle_get prim rand cont pass a1 "" a3 = .msg "provide a target field") ∧
    client_args "[\"./client\", \"get\", \"all\"]" = ("get", "all", "", "") := by
  refine ⟨fun _ _ _ _ _ _ _ _ => rfl, ?_, by decide⟩
  intro prim rand cont pass a1 a3
  rfl

/-- C6: with a non-empty password argument, `handle_open` loads the store
with the cached session password whenever one is cached — the supplied
password is then irrelevant and is not cached; only when no password is
cached is the supplied one cached and used for the load (and cleared again
on failure). -/
theorem handle_open_uses_cached_password :
    ∀ (prim : Prim) (rand : List Nat) (disk : Option (List Nat)) (st : State) (a b : String),
      a ≠ "" → b ≠ "" →
      (st.last_pass ≠ "" →
        handle_open prim rand disk st a = handle_open prim rand disk st b ∧
        handle_open prim rand disk st a =
          (match open_store prim rand disk st.current_container st.last_pass with
           | .ok c => ({ st with current_container := c },
               "Password accepted, pass store opened.")
           | .error e => ({ st with last_pass := "" }, openErrorMsg e))) ∧
      (st.last_pass = "" →
        handle_open prim rand disk st a =
          (match open_store prim rand disk st.current_container a with
           | .ok c => (⟨c, a⟩, "Password accepted, pass store opened.")
           | .error e => (⟨st.current_container, ""⟩, openErrorMsg e))) := by
  intro prim rand disk st a b ha hb
  obtain ⟨cc, lp⟩ := st
  constructor
  · intro hlp
    simp only [State.last_pass] at hlp
    constructor
    · simp only [handle_open, if_neg ha, if_neg hb, State.last_pass, if_neg hlp]
    · cases hres : open_store prim rand disk cc lp with
      | ok c => simp [handle_open, ha, hlp, hres]
      | error e => simp [handle_open, ha, hlp, hres]
  · intro hlp
    simp only [State.last_pass] at hlp
    subst hlp
    cases hres : open_store prim rand disk cc a with
    | ok c => simp [handle_open, ha, hres]
    | error e => simp [handle_open, ha, hres]

/-- C6 witness: with cached password "pw", opening with "x" and with "y"
gives identical results. -/
theorem handle_open_uses_cached_password_witness :
    ("x" : String) ≠ "" ∧ ("y" : String) ≠ "" ∧
    (State.mk (Container.new "new" none) "pw").last_pass ≠ "" ∧
    handle_open toyPrim [] none ⟨Container.new "new" none, "pw"⟩ "x" =
      handle_open toyPrim [] none ⟨Container.new "new" none, "pw"⟩ "y" :=
  ⟨by decide, by decide, by decide,
    ((handle_open_uses_cached_password toyPrim [] none ⟨Container.new "new" none, "pw"⟩
      "x" "y" (by decide) (by decide)).1 (by decide)).1⟩

/-- C2 witness: the reseal equation and the strict change of the secret
evaluated on the sample container under the toy primitives. -/
theorem save_reseals_every_secret_witness :
    get_all_entries (Container.encrypt_all_passwords toyPrim sampleKns.1 sampleNonce
        sampleKns.2 sampleTwoEntries) =
      (get_all_entries sampleTwoEntries).map
        (Entry.encrypt_password toyPrim sampleKns.1 sampleNonce sampleKns.2) ∧
    (Entry.encrypt_password toyPrim sampleKns.1 sampleNonce sampleKns.2 sampleE1).pass_vec ≠
      sampleE1.pass_vec :=
  ⟨(save_reseals_every_secret toyPrim sampleKns.1 sampleNonce sampleKns.2 sampleTwoEntries).1,
    (save_reseals_every_secret toyPrim sampleKns.1 sampleNonce sampleKns.2 sampleTwoEntries).2
      sampleE1⟩

/-- C9 witness: the request `get all` (field selector in token 2, as the
spec's table and the bundled client place it) is answered with
"provide a target field". -/
theorem handle_get_ignores_first_argument_witness :
    handle_get toyPrim [] sampleC8 "pw" "all" "" "" = .msg "provide a target field" :=
  handle_get_ignores_first_argument.2.1 toyPrim [] sampleC8 "pw" "all" ""
